import Mathlib

/-!
Verification of the NextExplorer authorization core.

This file gives a shallow embedding of the access-control code of the
repository (backend/src/services/accessManager.js, the permission resolver of
accessControlService.js, the action-authorization facade and the
access-filtered directory listing) and proves the testable properties stated
in the specification against it.

External collaborators (the rule store snapshot, share store, user-volume
store, share expiry, feature flags, listing configuration and the filesystem)
are modelled as explicit inputs, following the collaborator interfaces the
specification fixes in its section 6.  The path utilities
(parsePathSpace, normalizeRelativePath, combineRelativePath from
utils/pathUtils.js) are not part of the source snapshot; they are modelled
from the specification and marked as such in their doc comments.
-/

namespace NextExplorer

/-- Permission value of an access-control rule: rw, ro or hidden. -/
inductive Perm where
  | rw
  | ro
  | hidden
  deriving DecidableEq, Repr

/-- An administrator-defined path rule (data model of the spec, section 3). -/
structure Rule where
  id : String
  path : String
  recursive : Bool
  permissions : Perm
  deriving DecidableEq, Repr

/-- An authenticated user as the engine sees it. -/
structure User where
  id : String
  roles : List String
  deriving DecidableEq, Repr

/-- A guest session, scoped to exactly one share. -/
structure GuestSession where
  shareId : String
  deriving DecidableEq, Repr

/-- The caller context handed to the engine: user and guest session. -/
structure Context where
  user : Option User
  guestSession : Option GuestSession
  deriving DecidableEq, Repr

/-- A user volume record. -/
structure UserVolume where
  id : String
  userId : String
  label : String
  accessMode : String
  deriving DecidableEq, Repr

/-- A share record. -/
structure Share where
  id : String
  shareToken : String
  ownerId : String
  sourceSpace : String
  sourcePath : String
  isDirectory : Bool
  sharingType : String
  accessMode : String
  expiresAt : Option Nat
  label : String
  deriving DecidableEq, Repr

/-- The shareInfo block of a granted share decision. -/
structure ShareInfo where
  shareId : String
  shareToken : String
  accessMode : String
  expiresAt : Option Nat
  isOwner : Bool
  label : String
  deriving DecidableEq, Repr

/-- The access decision record produced by the engine.  The userVolume and
share fields carry the records some branches attach for path resolution;
branches that do not attach them are modelled with none. -/
structure AccessDecision where
  canAccess : Bool
  canRead : Bool
  canWrite : Bool
  canDelete : Bool
  canUpload : Bool
  canCreateFolder : Bool
  canShare : Bool
  canDownload : Bool
  isShared : Bool
  shareInfo : Option ShareInfo
  effectivePermission : Perm
  denialReason : Option String
  userVolume : Option UserVolume
  share : Option Share
  deriving DecidableEq, Repr

/-- External collaborator snapshot (spec, section 6): the ordered rule list of
the settings store, the user-volume feature flag, the user-volume and share
stores, share expiry, and listing configuration. -/
structure Env where
  rules : List Rule
  featuresUserVolumes : Bool
  getUserVolumeForPath : String → String → Option UserVolume
  getVolumeById : String → Option UserVolume
  getShareByToken : String → Option Share
  hasUserPermission : String → String → Bool
  isShareExpired : Share → Bool
  excludedFiles : List String
  previewable : List String

/-- The options object of getAccessInfo: an optional pre-supplied rule
resolver and request-scoped lookup caches.  The caches are modelled as
explicit association lists and threaded through the call, mirroring the
in-place map mutation of the source. -/
structure Options where
  permissionResolver : Option (String → Perm)
  shareCache : Option (List (String × Share))
  userVolumeCache : Option (List (String × UserVolume))

/-- Options with no resolver and no caches supplied. -/
def noOptions : Options :=
  { permissionResolver := none, shareCache := none, userVolumeCache := none }

/-- JS String.prototype.split for a single-character separator, as a
structural recursion over the character list. -/
def splitCharAux (sep : Char) : List Char → List (List Char)
  | [] => [[]]
  | c :: rest =>
    let r := splitCharAux sep rest
    if c = sep then [] :: r
    else
      match r with
      | [] => [[c]]
      | h :: t => (c :: h) :: t

/-- JS String.prototype.split with a one-character separator. -/
def jsSplit (s : String) (sep : Char) : List String :=
  (splitCharAux sep s.data).map (fun cs => String.mk cs)

/-- JS String.prototype.startsWith: the second string occurs at the start of
the first. -/
def jsStartsWith (s pre : String) : Bool :=
  pre.data.isPrefixOf s.data

/-- JS String.prototype.toLowerCase, character by character. -/
def jsToLower (s : String) : String :=
  String.mk (s.data.map Char.toLower)

/-- JS String.prototype.slice from a character index to the end. -/
def jsSliceFrom (s : String) (n : Nat) : String :=
  String.mk (s.data.drop n)

/-- Modelled from the spec: normalizeRelativePath of utils/pathUtils.js is
not in the source snapshot.  Per the spec (section 4.1), normalization
removes leading and trailing slashes and collapses repeated separators,
which amounts to dropping empty segments.  Rejection of dot-dot traversal
segments is a validation failure upstream and is not modelled; no theorem
below uses such a path. -/
def normalizeRelativePath (p : String) : String :=
  String.intercalate "/" ((jsSplit p '/').filter (fun s => s ≠ ""))

/-- Modelled from the spec: combineRelativePath of utils/pathUtils.js is not
in the source snapshot.  It joins a parent logical path with a relative
child path (spec sections 4.3 and 4.5). -/
def combineRelativePath (parent child : String) : String :=
  normalizeRelativePath (parent ++ "/" ++ child)

/-- The three path spaces. -/
inductive Space where
  | volume
  | personal
  | share
  deriving DecidableEq, Repr

/-- Result of the path-space parser. -/
structure ParsedPath where
  space : Space
  rel : String
  shareToken : Option String
  innerPath : String
  deriving DecidableEq, Repr

/-- Modelled from the spec: parsePathSpace of utils/pathUtils.js is not in
the source snapshot.  Per the spec (section 4.1) the first segment of the
normalized logical path selects the space: personal, or share (second
segment is the share token, the remainder the inner path), with volume as
the implicit default for any other path. -/
def parsePathSpace (logicalPath : String) : ParsedPath :=
  match (jsSplit logicalPath '/').filter (fun s => s ≠ "") with
  | [] => { space := Space.volume, rel := "", shareToken := none, innerPath := "" }
  | first :: rest =>
    if first = "personal" then
      { space := Space.personal, rel := String.intercalate "/" rest,
        shareToken := none, innerPath := "" }
    else if first = "share" then
      match rest with
      | [] => { space := Space.share, rel := "", shareToken := none, innerPath := "" }
      | tok :: inner =>
        { space := Space.share, rel := "", shareToken := some tok,
          innerPath := String.intercalate "/" inner }
    else
      { space := Space.volume, rel := String.intercalate "/" (first :: rest),
        shareToken := none, innerPath := "" }

/-- The per-rule match test of createPermissionResolver
(accessControlService.js): a rule with an empty normalized path is skipped;
a recursive rule matches the path itself or any strictly deeper path via a
string test against the rule path followed by a slash; a non-recursive rule
matches only exactly. -/
def ruleMatches (rel : String) (rule : Rule) : Bool :=
  let rulePath := normalizeRelativePath rule.path
  if rulePath = "" then false
  else if rule.recursive then rel == rulePath || jsStartsWith rel (rulePath ++ "/")
  else rel == rulePath

/-- createPermissionResolver of accessControlService.js: first-match-wins
over the stored rule order, defaulting to rw.  (The JS fallback of
rule.permissions to rw applies only to falsy stored values, which the typed
Perm field cannot represent.) -/
def createPermissionResolver (rules : List Rule) (relativePath : String) : Perm :=
  let rel := normalizeRelativePath relativePath
  match rules.find? (fun rule => ruleMatches rel rule) with
  | some rule => rule.permissions
  | none => Perm.rw

/-- getPermissionForPath of accessControlService.js: resolve against the
stored rule list of the settings snapshot. -/
def getPermissionForPath (env : Env) (relativePath : String) : Perm :=
  createPermissionResolver env.rules relativePath

/-- The getPerm helper of accessManager.js: a caller-supplied resolver takes
precedence over the stored rules. -/
def getPerm (env : Env) (opts : Options) (p : String) : Perm :=
  match opts.permissionResolver with
  | some resolver => resolver p
  | none => getPermissionForPath env p

/-- createDeniedAccess of accessManager.js. -/
def createDeniedAccess (reason : String) : AccessDecision :=
  { canAccess := false, canRead := false, canWrite := false, canDelete := false,
    canUpload := false, canCreateFolder := false, canShare := false,
    canDownload := false, isShared := false, shareInfo := none,
    effectivePermission := Perm.hidden, denialReason := some reason,
    userVolume := none, share := none }

/-- getVolumeAccess of accessManager.js. -/
def getVolumeAccess (env : Env) (context : Context) (relativePath : String)
    (opts : Options) : AccessDecision :=
  if context.guestSession.isSome && context.user.isNone then
    createDeniedAccess "Guests cannot access volumes"
  else
    match context.user with
    | none => createDeniedAccess "Authentication required"
    | some user =>
      if user.id = "" then createDeniedAccess "Authentication required"
      else
        let isAdmin := user.roles.contains "admin"
        if env.featuresUserVolumes && !isAdmin then
          match env.getUserVolumeForPath user.id relativePath with
          | none => createDeniedAccess "You do not have access to this volume"
          | some userVolume =>
            let isReadOnly := userVolume.accessMode == "readonly"
            let permission := getPerm env opts relativePath
            if permission = Perm.hidden then createDeniedAccess "Path is hidden"
            else
              let effectiveReadOnly := isReadOnly || permission == Perm.ro
              { canAccess := true, canRead := true,
                canWrite := !effectiveReadOnly, canDelete := !effectiveReadOnly,
                canUpload := !effectiveReadOnly, canCreateFolder := !effectiveReadOnly,
                canShare := true, canDownload := true, isShared := false,
                shareInfo := none,
                effectivePermission := if effectiveReadOnly then Perm.ro else Perm.rw,
                denialReason := none, userVolume := some userVolume, share := none }
        else
          let permission := getPerm env opts relativePath
          if permission = Perm.hidden then createDeniedAccess "Path is hidden"
          else
            let isReadOnly := permission == Perm.ro
            { canAccess := true, canRead := true,
              canWrite := !isReadOnly || isAdmin, canDelete := !isReadOnly || isAdmin,
              canUpload := !isReadOnly || isAdmin,
              canCreateFolder := !isReadOnly || isAdmin,
              canShare := true, canDownload := true, isShared := false,
              shareInfo := none, effectivePermission := permission,
              denialReason := none, userVolume := none, share := none }

/-- getPersonalAccess of accessManager.js: authenticated users get full
access to their personal space; no rule consultation takes place. -/
def getPersonalAccess (context : Context) : AccessDecision :=
  if context.guestSession.isSome && context.user.isNone then
    createDeniedAccess "Guests cannot access personal folders"
  else
    match context.user with
    | none => createDeniedAccess "Authentication required"
    | some user =>
      if user.id = "" then createDeniedAccess "Authentication required"
      else
        { canAccess := true, canRead := true, canWrite := true, canDelete := true,
          canUpload := true, canCreateFolder := true, canShare := true,
          canDownload := true, isShared := false, shareInfo := none,
          effectivePermission := Perm.rw, denialReason := none,
          userVolume := none, share := none }

/-- Share cache lookup of getShareAccess. -/
def cachedShare (opts : Options) (tok : String) : Option Share :=
  match opts.shareCache with
  | some cache => cache.lookup tok
  | none => none

/-- User-volume cache lookup of getShareAccess. -/
def cachedUserVolume (opts : Options) (volumeId : String) : Option UserVolume :=
  match opts.userVolumeCache with
  | some cache => cache.lookup volumeId
  | none => none

/-- The share getShareAccess works with: the request-scoped cache first,
then the share store. -/
def lookupShare (env : Env) (opts : Options) (tok : String) : Option Share :=
  match cachedShare opts tok with
  | some share => some share
  | none => env.getShareByToken tok

/-- The user volume getShareAccess works with: the request-scoped cache
first, then the user-volume store. -/
def lookupUserVolume (env : Env) (opts : Options) (volumeId : String) :
    Option UserVolume :=
  match cachedUserVolume opts volumeId with
  | some v => some v
  | none => env.getVolumeById volumeId

/-- The cache insertion getShareAccess performs after a cache miss that the
store answered. -/
def recordShare (env : Env) (opts : Options) (tok : String) : Options :=
  match cachedShare opts tok with
  | some _ => opts
  | none =>
    match opts.shareCache, env.getShareByToken tok with
    | some cache, some share => { opts with shareCache := some ((tok, share) :: cache) }
    | _, _ => opts

/-- The user-volume cache insertion of getShareAccess after a cache miss
that the store answered. -/
def recordUserVolume (env : Env) (opts : Options) (volumeId : String) : Options :=
  match cachedUserVolume opts volumeId with
  | some _ => opts
  | none =>
    match opts.userVolumeCache, env.getVolumeById volumeId with
    | some cache, some v => { opts with userVolumeCache := some ((volumeId, v) :: cache) }
    | _, _ => opts

/-- The user_volume source path split of getShareAccess:
String(share.sourcePath).split('/').filter(Boolean). -/
def shareSourceSegments (share : Share) : List String :=
  (jsSplit share.sourcePath '/').filter (fun s => s ≠ "")

/-- The combined underlying path getShareAccess evaluates for a
volume-sourced share: the source path joined with the inner path for a
directory share with a nonempty inner path, the source path itself
otherwise. -/
def shareVolumeCombined (share : Share) (innerPath : String) : String :=
  if share.isDirectory ∧ innerPath ≠ "" then
    combineRelativePath share.sourcePath innerPath
  else share.sourcePath

/-- The label-qualified logical path getShareAccess evaluates rules against
for a user_volume-sourced share. -/
def shareUserVolumeLogical (share : Share) (userVolume : UserVolume)
    (innerPath : String) : String :=
  let baseWithinVolume := String.intercalate "/" (shareSourceSegments share).tail
  let combinedWithinVolume :=
    if share.isDirectory ∧ innerPath ≠ "" then
      combineRelativePath baseWithinVolume innerPath
    else baseWithinVolume
  if combinedWithinVolume = "" then userVolume.label
  else userVolume.label ++ "/" ++ combinedWithinVolume

/-- The granted-share decision record of getShareAccess. -/
def grantShareAccess (share : Share) (isOwner isReadWrite : Bool) : AccessDecision :=
  { canAccess := true, canRead := true, canWrite := isReadWrite,
    canDelete := isReadWrite, canUpload := isReadWrite,
    canCreateFolder := isReadWrite, canShare := false, canDownload := true,
    isShared := true,
    shareInfo := some { shareId := share.id, shareToken := share.shareToken,
                        accessMode := if isReadWrite then "readwrite" else "readonly",
                        expiresAt := share.expiresAt, isOwner := isOwner,
                        label := share.label },
    effectivePermission := if isReadWrite then Perm.rw else Perm.ro,
    denialReason := none, userVolume := none, share := some share }

/-- The underlying-permission capping step of getShareAccess
(accessManager.js lines 207-282), reached once the token, expiry and
sharing-type gates have passed.  Returns the decision together with the
possibly extended user-volume cache. -/
def getShareAccessCapped (env : Env) (context : Context) (share : Share)
    (innerPath : String) (opts : Options) : AccessDecision × Options :=
  let isOwner :=
    match context.user with
    | some u => u.id == share.ownerId
    | none => false
  let shareReadWrite := share.accessMode == "readwrite"
  if share.sourceSpace = "volume" then
    let underlyingPermission := getPerm env opts (shareVolumeCombined share innerPath)
    if underlyingPermission = Perm.hidden then
      (createDeniedAccess "Path is hidden", opts)
    else
      let underlyingReadOnly := underlyingPermission == Perm.ro
      (grantShareAccess share isOwner (shareReadWrite && !underlyingReadOnly), opts)
  else if share.sourceSpace = "user_volume" then
    match shareSourceSegments share with
    | [] => (createDeniedAccess "Share source volume is invalid", opts)
    | volumeId :: _ =>
      let fetched := lookupUserVolume env opts volumeId
      let opts1 := recordUserVolume env opts volumeId
      match fetched with
      | none => (createDeniedAccess "Share source volume not found", opts1)
      | some userVolume =>
        if userVolume.userId ≠ share.ownerId then
          (createDeniedAccess "Share source volume mismatch", opts1)
        else
          let underlyingPermission :=
            getPerm env opts1 (shareUserVolumeLogical share userVolume innerPath)
          if underlyingPermission = Perm.hidden then
            (createDeniedAccess "Path is hidden", opts1)
          else
            let underlyingReadOnly :=
              userVolume.accessMode == "readonly" || underlyingPermission == Perm.ro
            (grantShareAccess share isOwner (shareReadWrite && !underlyingReadOnly), opts1)
  else
    (grantShareAccess share isOwner shareReadWrite, opts)

/-- getShareAccess of accessManager.js.  All expected policy outcomes are
returned as decision values; the function is total and never throws. -/
def getShareAccess (env : Env) (context : Context) (shareToken : Option String)
    (innerPath : String) (opts : Options) : AccessDecision × Options :=
  match shareToken with
  | none => (createDeniedAccess "Share token is required", opts)
  | some tok =>
    if tok = "" then (createDeniedAccess "Share token is required", opts)
    else
      let fetched := lookupShare env opts tok
      let opts1 := recordShare env opts tok
      match fetched with
      | none => (createDeniedAccess "Share not found", opts1)
      | some share =>
        if env.isShareExpired share then
          (createDeniedAccess "Share has expired", opts1)
        else if share.sharingType = "users" then
          match context.user with
          | none => (createDeniedAccess "Authentication required", opts1)
          | some user =>
            if user.id = "" then (createDeniedAccess "Authentication required", opts1)
            else if !(env.hasUserPermission share.id user.id) then
              (createDeniedAccess "Access denied", opts1)
            else getShareAccessCapped env context share innerPath opts1
        else if share.sharingType = "anyone" then
          if context.user.isNone && context.guestSession.isNone then
            (createDeniedAccess "Share access required", opts1)
          else
            match context.guestSession, context.user with
            | some guest, none =>
              if guest.shareId ≠ share.id then
                (createDeniedAccess "Invalid guest session for this share", opts1)
              else getShareAccessCapped env context share innerPath opts1
            | _, _ => getShareAccessCapped env context share innerPath opts1
        else getShareAccessCapped env context share innerPath opts1

/-- getAccessInfo of accessManager.js: dispatch on the parsed path space. -/
def getAccessInfo (env : Env) (context : Context) (relativePath : String)
    (opts : Options) : AccessDecision × Options :=
  let parsed := parsePathSpace relativePath
  match parsed.space with
  | Space.volume => (getVolumeAccess env context parsed.rel opts, opts)
  | Space.personal => (getPersonalAccess context, opts)
  | Space.share => getShareAccess env context parsed.shareToken parsed.innerPath opts

/-- One capability flag of a decision. -/
inductive CapFlag where
  | canRead
  | canWrite
  | canDelete
  | canUpload
  | canCreateFolder
  | canDownload
  | canShare
  deriving DecidableEq, Repr

/-- Dynamic capability-flag read, accessInfo[flag] in the source. -/
def decisionFlag (d : AccessDecision) : CapFlag → Bool
  | CapFlag.canRead => d.canRead
  | CapFlag.canWrite => d.canWrite
  | CapFlag.canDelete => d.canDelete
  | CapFlag.canUpload => d.canUpload
  | CapFlag.canCreateFolder => d.canCreateFolder
  | CapFlag.canDownload => d.canDownload
  | CapFlag.canShare => d.canShare

/-- actionToFlag of the authorization facade: the switch over action names,
returning none for an unknown action. -/
def actionToFlag (action : String) : Option CapFlag :=
  if action = "list" then some CapFlag.canRead
  else if action = "read" then some CapFlag.canRead
  else if action = "write" then some CapFlag.canWrite
  else if action = "delete" then some CapFlag.canDelete
  else if action = "upload" then some CapFlag.canUpload
  else if action = "createFolder" then some CapFlag.canCreateFolder
  else if action = "rename" then some CapFlag.canWrite
  else if action = "download" then some CapFlag.canDownload
  else if action = "createShare" then some CapFlag.canShare
  else none

/-- Result of the authorization facade. -/
structure AuthResult where
  allowed : Bool
  accessInfo : AccessDecision
  deriving DecidableEq, Repr

/-- authorizePath of the authorization facade: evaluate access, then map the
action to its capability flag; unknown actions are denied with a distinct
reason and are never allowed by default. -/
def authorizePath (env : Env) (context : Context) (logicalPath action : String)
    (opts : Options) : AuthResult × Options :=
  let r := getAccessInfo env context logicalPath opts
  let accessInfo := r.1
  if !accessInfo.canAccess then
    ({ allowed := false, accessInfo := accessInfo }, r.2)
  else
    match actionToFlag action with
    | none =>
      ({ allowed := false,
         accessInfo := { accessInfo with denialReason := some "Unknown action" } }, r.2)
    | some flag =>
      ({ allowed := decisionFlag accessInfo flag, accessInfo := accessInfo }, r.2)

/-- A filesystem stat result for one directory child. -/
structure Stats where
  isDirectory : Bool
  isFile : Bool
  size : Nat
  mtime : Nat
  deriving DecidableEq, Repr

/-- Outcome of stat-ing one child: either stats, or an error code. -/
inductive StatResult where
  | ok (stats : Stats)
  | err (code : String)
  deriving DecidableEq, Repr

/-- The stat error codes listDirectoryItems swallows per child. -/
def statSkipCodes : List String := ["EPERM", "EACCES", "ENOENT", "ELOOP"]

/-- JS path.extname for plain file names: the suffix from the last dot,
empty when there is no dot or the only dot is the leading character. -/
def extname (name : String) : String :=
  match jsSplit name '.' with
  | [] => ""
  | [_] => ""
  | first :: rest =>
    if first = "" ∧ rest.length = 1 then ""
    else "." ++ rest.getLastD ""

/-- toKind of directoryListingService: directory, or the lowercased file
extension capped at ten characters, else unknown. -/
def toKind (stats : Stats) (name : String) : String :=
  if stats.isDirectory then "directory"
  else
    let ext := jsToLower (jsSliceFrom (extname name) 1)
    if ext = "" then "unknown"
    else if ext.length > 10 then "unknown"
    else ext

/-- One listDirectoryItems invocation: directory entries with their stat
outcomes (keyed by entry name; the absolute directory prefix adds nothing to
the model), the parent logical path, the caller context, and the listing
options of the source. -/
structure ListingRequest where
  entries : List String
  stat : String → StatResult
  parentLogicalPath : String
  context : Context
  thumbsEnabled : Bool
  excludeDownloadArtifacts : Bool
  permissionRules : Option (List Rule)
  shareCache : Option (List (String × Share))
  userVolumeCache : Option (List (String × UserVolume))

/-- One returned listing item.  The source sets supportsThumbnail only when
true; an absent field is modelled as false.  The optional itemExtras
callback is modelled at its default (absent). -/
structure Item where
  name : String
  path : String
  dateModified : Nat
  size : Nat
  kind : String
  supportsThumbnail : Bool
  deriving DecidableEq, Repr

/-- Result of a listing: the filtered items, or the propagated error code of
a child stat failure outside the swallowed set. -/
inductive ListOutcome where
  | ok (items : List Item)
  | fsError (code : String)
  deriving DecidableEq, Repr

/-- The accessOptions object listDirectoryItems assembles: a resolver
compiled from the supplied rules when the list is nonempty, plus the
supplied caches. -/
def listingAccessOptions (req : ListingRequest) : Options :=
  { permissionResolver :=
      match req.permissionRules with
      | some rules =>
        if rules.length > 0 then some (createPermissionResolver rules) else none
      | none => none,
    shareCache := req.shareCache,
    userVolumeCache := req.userVolumeCache }

/-- The entry pre-filter of listDirectoryItems: excluded file names, and
optionally .download artifacts. -/
def listingEntries (env : Env) (req : ListingRequest) : List String :=
  (req.entries.filter (fun name => !env.excludedFiles.contains name)).filter
    (fun name =>
      if req.excludeDownloadArtifacts then jsToLower (extname name) != ".download"
      else true)

/-- The item listDirectoryItems builds for a stat-ed, accessible child. -/
def listingItem (env : Env) (req : ListingRequest) (name : String)
    (stats : Stats) : Item :=
  let kind := toKind stats name
  { name := name, path := req.parentLogicalPath, dateModified := stats.mtime,
    size := stats.size, kind := kind,
    supportsThumbnail :=
      req.thumbsEnabled && stats.isFile && !(kind == "pdf")
        && env.previewable.contains (jsToLower kind) }

/-- The per-entry loop of listDirectoryItems: stat (swallowing the listed
error codes as a skip, propagating any other), per-child access decision
with the shared options, drop inaccessible children, build items.  The
request-scoped caches are threaded through the children. -/
def listItemsGo (env : Env) (req : ListingRequest) :
    List String → Options → ListOutcome
  | [], _ => ListOutcome.ok []
  | name :: rest, opts =>
    match req.stat name with
    | StatResult.err code =>
      if statSkipCodes.contains code then listItemsGo env req rest opts
      else ListOutcome.fsError code
    | StatResult.ok stats =>
      let r := getAccessInfo env req.context
        (combineRelativePath req.parentLogicalPath name) opts
      if !(r.1).canAccess then listItemsGo env req rest r.2
      else
        match listItemsGo env req rest r.2 with
        | ListOutcome.ok items => ListOutcome.ok (listingItem env req name stats :: items)
        | ListOutcome.fsError code => ListOutcome.fsError code

/-- listDirectoryItems of directoryListingService. -/
def listDirectoryItems (env : Env) (req : ListingRequest) : ListOutcome :=
  listItemsGo env req (listingEntries env req) (listingAccessOptions req)

/-! Concrete collaborator snapshots and callers used to witness the theorems
below on explicit inputs. -/

/-- A collaborator snapshot with empty stores. -/
def emptyEnv : Env :=
  { rules := [], featuresUserVolumes := false,
    getUserVolumeForPath := fun _ _ => none,
    getVolumeById := fun _ => none,
    getShareByToken := fun _ => none,
    hasUserPermission := fun _ _ => false,
    isShareExpired := fun _ => false,
    excludedFiles := [], previewable := [] }

/-- An administrator. -/
def adminUser : User := { id := "u1", roles := ["admin"] }

/-- A context holding only the administrator. -/
def adminContext : Context := { user := some adminUser, guestSession := none }

/-- A non-admin user. -/
def plainUser : User := { id := "u2", roles := [] }

/-- A context holding only the non-admin user. -/
def plainContext : Context := { user := some plainUser, guestSession := none }

/-- A guest session minted for share s1. -/
def guestS1 : GuestSession := { shareId := "s1" }

/-- A guest-only context bound to share s1. -/
def guestS1Context : Context := { user := none, guestSession := some guestS1 }

/-- A guest-only context bound to a different share. -/
def guestOtherContext : Context :=
  { user := none, guestSession := some { shareId := "s9" } }

/-- A non-recursive ro rule on docs. -/
def ruleDocsRo : Rule :=
  { id := "r1", path := "docs", recursive := false, permissions := Perm.ro }

/-- A hidden rule on docs/secret.txt. -/
def ruleSecretHidden : Rule :=
  { id := "r2", path := "docs/secret.txt", recursive := false, permissions := Perm.hidden }

/-- A hidden rule on the logical path personal/docs. -/
def rulePersonalHidden : Rule :=
  { id := "r3", path := "personal/docs", recursive := false, permissions := Perm.hidden }

/-- A recursive ro rule on a/b. -/
def ruleAbRecursive : Rule :=
  { id := "r4", path := "a/b", recursive := true, permissions := Perm.ro }

/-- A non-recursive ro rule on a/b. -/
def ruleAbExact : Rule :=
  { id := "r5", path := "a/b", recursive := false, permissions := Perm.ro }

/-- An anyone/readwrite directory share of the volume path docs. -/
def docsShare : Share :=
  { id := "s1", shareToken := "tok", ownerId := "owner1", sourceSpace := "volume",
    sourcePath := "docs", isDirectory := true, sharingType := "anyone",
    accessMode := "readwrite", expiresAt := none, label := "docs share" }

/-- A snapshot resolving the docs share and carrying the ro rule on docs. -/
def docsShareEnv : Env :=
  { emptyEnv with
    rules := [ruleDocsRo],
    getShareByToken := fun t => if t = "tok" then some docsShare else none }

/-- A snapshot carrying only the hidden rule on docs/secret.txt. -/
def secretEnv : Env := { emptyEnv with rules := [ruleSecretHidden] }

/-- A snapshot carrying only the hidden rule on personal/docs. -/
def personalHiddenEnv : Env := { emptyEnv with rules := [rulePersonalHidden] }

/-- The listing request of the spec scenario: docs contains a.txt and
secret.txt, both stat-able plain files. -/
def secretListingReq : ListingRequest :=
  { entries := ["a.txt", "secret.txt"],
    stat := fun _ => StatResult.ok { isDirectory := false, isFile := true, size := 3, mtime := 5 },
    parentLogicalPath := "docs", context := adminContext, thumbsEnabled := false,
    excludeDownloadArtifacts := false, permissionRules := none,
    shareCache := none, userVolumeCache := none }

/-- The single item the spec scenario expects the listing to return. -/
def itemATxt : Item :=
  { name := "a.txt", path := "docs", dateModified := 5, size := 3,
    kind := "txt", supportsThumbnail := false }

/-- The matching discipline exactly as the claim states it: a rule governs
the path when its stored path equals the path exactly, or, when the rule is
marked recursive, when its stored path is a segment-aligned path-prefix of
it (the path continues with a slash immediately after the rule path). -/
def specRuleMatches (p : String) (rule : Rule) : Prop :=
  p = rule.path ∨ (rule.recursive = true ∧ ∃ rest, p = rule.path ++ "/" ++ rest)

/-- The record-level invariants every decision satisfies: the four write
capabilities agree; a denied decision has every capability flag false and
effective permission hidden; a granted decision is readable and
downloadable. -/
def decisionInvariant (d : AccessDecision) : Prop :=
  (d.canWrite = d.canDelete ∧ d.canDelete = d.canUpload ∧ d.canUpload = d.canCreateFolder)
  ∧ (d.canAccess = false →
      d.canRead = false ∧ d.canWrite = false ∧ d.canDelete = false ∧ d.canUpload = false
      ∧ d.canCreateFolder = false ∧ d.canShare = false ∧ d.canDownload = false
      ∧ d.effectivePermission = Perm.hidden)
  ∧ (d.canAccess = true → d.canRead = true ∧ d.canDownload = true)

/-! Helper lemmas. -/

/-- Character-list form of the prefix test. -/
theorem isPrefixOf_iff_exists {l₁ l₂ : List Char} :
    l₁.isPrefixOf l₂ = true ↔ ∃ t, l₂ = l₁ ++ t := by
  induction l₁ generalizing l₂ with
  | nil => simp [List.isPrefixOf]
  | cons a as ih =>
    cases l₂ with
    | nil => simp [List.isPrefixOf]
    | cons b bs =>
      simp only [List.isPrefixOf, Bool.and_eq_true, beq_iff_eq, ih, List.cons_append]
      constructor
      · rintro ⟨hab, t, ht⟩
        exact ⟨t, by rw [hab, ht]⟩
      · rintro ⟨t, ht⟩
        injection ht with h1 h2
        exact ⟨h1.symm, t, h2⟩

/-- JS startsWith is exactly prefix extension on strings. -/
theorem jsStartsWith_iff (s p : String) : jsStartsWith s p = true ↔ ∃ t, s = p ++ t := by
  unfold jsStartsWith
  rw [isPrefixOf_iff_exists]
  constructor
  · rintro ⟨t, ht⟩
    exact ⟨String.mk t, congrArg String.mk (ht.trans (String.data_append p (String.mk t)).symm)⟩
  · rintro ⟨t, ht⟩
    exact ⟨t.data, by rw [ht]; exact String.data_append p t⟩

/-- Recording a share leaves the user-volume cache untouched. -/
theorem recordShare_userVolumeCache (env : Env) (opts : Options) (tok : String) :
    (recordShare env opts tok).userVolumeCache = opts.userVolumeCache := by
  unfold recordShare
  repeat' split
  all_goals rfl

/-- Recording a share leaves the permission resolver untouched. -/
theorem recordShare_permissionResolver (env : Env) (opts : Options) (tok : String) :
    (recordShare env opts tok).permissionResolver = opts.permissionResolver := by
  unfold recordShare
  repeat' split
  all_goals rfl

/-- Recording a user volume leaves the share cache untouched. -/
theorem recordUserVolume_shareCache (env : Env) (opts : Options) (volumeId : String) :
    (recordUserVolume env opts volumeId).shareCache = opts.shareCache := by
  unfold recordUserVolume
  repeat' split
  all_goals rfl

/-- Recording a user volume leaves the permission resolver untouched. -/
theorem recordUserVolume_permissionResolver (env : Env) (opts : Options)
    (volumeId : String) :
    (recordUserVolume env opts volumeId).permissionResolver
      = opts.permissionResolver := by
  unfold recordUserVolume
  repeat' split
  all_goals rfl

/-- User-volume lookup is unaffected by a share-cache insertion. -/
theorem lookupUserVolume_recordShare_eq (env : Env) (opts : Options)
    (tok volumeId : String) :
    lookupUserVolume env (recordShare env opts tok) volumeId
      = lookupUserVolume env opts volumeId := by
  unfold lookupUserVolume cachedUserVolume
  rw [recordShare_userVolumeCache]

/-- Share lookup is unaffected by a user-volume-cache insertion. -/
theorem lookupShare_recordUserVolume_eq (env : Env) (opts : Options)
    (volumeId tok : String) :
    lookupShare env (recordUserVolume env opts volumeId) tok
      = lookupShare env opts tok := by
  unfold lookupShare cachedShare
  rw [recordUserVolume_shareCache]

/-- Rule resolution is unaffected by a share-cache insertion. -/
theorem getPerm_recordShare_eq (env : Env) (opts : Options) (tok p : String) :
    getPerm env (recordShare env opts tok) p = getPerm env opts p := by
  unfold getPerm
  rw [recordShare_permissionResolver]

/-- Rule resolution is unaffected by a user-volume-cache insertion. -/
theorem getPerm_recordUserVolume_eq (env : Env) (opts : Options)
    (volumeId p : String) :
    getPerm env (recordUserVolume env opts volumeId) p = getPerm env opts p := by
  unfold getPerm
  rw [recordUserVolume_permissionResolver]

/-- Looking a share up again after recording it gives the same share. -/
theorem lookupShare_recordShare_eq (env : Env) (opts : Options) (tok : String) :
    lookupShare env (recordShare env opts tok) tok = lookupShare env opts tok := by
  unfold lookupShare recordShare cachedShare
  cases hc : opts.shareCache with
  | none => simp [hc]
  | some cache =>
    cases hl : List.lookup tok cache with
    | some s => simp [hc, hl]
    | none =>
      cases hs : env.getShareByToken tok with
      | none => simp [hc, hl, hs]
      | some s => simp [hc, hl, hs, List.lookup]

/-- Looking a user volume up again after recording it gives the same volume. -/
theorem lookupUserVolume_recordUserVolume_eq (env : Env) (opts : Options)
    (volumeId : String) :
    lookupUserVolume env (recordUserVolume env opts volumeId) volumeId
      = lookupUserVolume env opts volumeId := by
  unfold lookupUserVolume recordUserVolume cachedUserVolume
  cases hc : opts.userVolumeCache with
  | none => simp [hc]
  | some cache =>
    cases hl : List.lookup volumeId cache with
    | some v => simp [hc, hl]
    | none =>
      cases hv : env.getVolumeById volumeId with
      | none => simp [hc, hl, hv]
      | some v => simp [hc, hl, hv, List.lookup]

/-- createDeniedAccess satisfies the record invariants. -/
theorem createDeniedAccess_invariant (reason : String) :
    decisionInvariant (createDeniedAccess reason) := by
  simp [decisionInvariant, createDeniedAccess]

/-- getVolumeAccess satisfies the record invariants. -/
theorem getVolumeAccess_invariant (env : Env) (context : Context) (rel : String)
    (opts : Options) : decisionInvariant (getVolumeAccess env context rel opts) := by
  unfold getVolumeAccess
  dsimp only
  repeat' split
  all_goals simp [decisionInvariant, createDeniedAccess]

/-- getPersonalAccess satisfies the record invariants. -/
theorem getPersonalAccess_invariant (context : Context) :
    decisionInvariant (getPersonalAccess context) := by
  unfold getPersonalAccess
  repeat' split
  all_goals simp [decisionInvariant, createDeniedAccess]

/-- A granted share decision satisfies the record invariants. -/
theorem grantShareAccess_invariant (share : Share) (isOwner isReadWrite : Bool) :
    decisionInvariant (grantShareAccess share isOwner isReadWrite) := by
  simp [decisionInvariant, grantShareAccess]

/-- The capping step of getShareAccess satisfies the record invariants. -/
theorem getShareAccessCapped_invariant (env : Env) (context : Context) (share : Share)
    (innerPath : String) (opts : Options) :
    decisionInvariant (getShareAccessCapped env context share innerPath opts).1 := by
  unfold getShareAccessCapped
  dsimp only
  repeat' split
  all_goals
    first
    | exact createDeniedAccess_invariant _
    | exact grantShareAccess_invariant _ _ _

/-- getShareAccess satisfies the record invariants. -/
theorem getShareAccess_invariant (env : Env) (context : Context)
    (shareToken : Option String) (innerPath : String) (opts : Options) :
    decisionInvariant (getShareAccess env context shareToken innerPath opts).1 := by
  unfold getShareAccess
  dsimp only
  repeat' split
  all_goals
    first
    | exact createDeniedAccess_invariant _
    | exact getShareAccessCapped_invariant _ _ _ _ _

/-- C10: every decision record returned by the engine, for any space and any
caller, has its four write capabilities (canWrite, canDelete, canUpload,
canCreateFolder) equal to each other; when canAccess is false all remaining
capability flags are false and the effective permission is hidden; when
canAccess is true, canRead and canDownload are true. -/
theorem c10_decision_record_invariants (env : Env) (context : Context)
    (relativePath : String) (opts : Options) :
    decisionInvariant (getAccessInfo env context relativePath opts).1 := by
  unfold getAccessInfo
  dsimp only
  split
  · exact getVolumeAccess_invariant _ _ _ _
  · exact getPersonalAccess_invariant _
  · exact getShareAccess_invariant _ _ _ _ _

/-- A volume decision is denied whenever the consulted rule permission of
the volume-relative path is hidden, for every caller. -/
theorem getVolumeAccess_hidden_denied (env : Env) (context : Context) (rel : String)
    (opts : Options) (h : getPerm env opts rel = Perm.hidden) :
    (getVolumeAccess env context rel opts).canAccess = false := by
  unfold getVolumeAccess
  dsimp only
  repeat' split
  all_goals simp_all [createDeniedAccess]

/-- C2, counterexample to the claim as stated: the claim quantifies over all
logical paths, including personal ones, but the decision for a personal path
is made by getPersonalAccess, which never consults the rule resolver.  With
a rule hiding the logical path personal/docs, the rule permission of that
path resolves to hidden, yet the engine grants an authenticated caller
access. -/
theorem c2_personal_hidden_counterexample :
    createPermissionResolver personalHiddenEnv.rules "personal/docs" = Perm.hidden
    ∧ ((getAccessInfo personalHiddenEnv adminContext "personal/docs" noOptions).1).canAccess
        = true := by
  constructor
  · decide
  · decide

/-- C2 amended: for every volume-space logical path whose volume-relative
path resolves to rule permission hidden, the engine decision has canAccess
false for every caller; no caller role, admin included, bypasses hidden
(admins bypass only ro). -/
theorem c2_volume_hidden_denied (env : Env) (context : Context)
    (relativePath : String) (opts : Options)
    (hspace : (parsePathSpace relativePath).space = Space.volume)
    (hperm : getPerm env opts (parsePathSpace relativePath).rel = Perm.hidden) :
    ((getAccessInfo env context relativePath opts).1).canAccess = false := by
  unfold getAccessInfo
  dsimp only
  split
  · exact getVolumeAccess_hidden_denied _ _ _ _ hperm
  · simp_all
  · simp_all

/-- Witness for the amended C2 at a concrete input: the hidden rule on
docs/secret.txt denies even the administrator. -/
theorem c2_volume_hidden_denied_witness :
    (parsePathSpace "docs/secret.txt").space = Space.volume
    ∧ getPerm secretEnv noOptions (parsePathSpace "docs/secret.txt").rel = Perm.hidden
    ∧ ((getAccessInfo secretEnv adminContext "docs/secret.txt" noOptions).1).canAccess
        = false :=
  ⟨by decide, by decide,
    c2_volume_hidden_denied secretEnv adminContext "docs/secret.txt" noOptions
      (by decide) (by decide)⟩

/-- C5: a volume path evaluated for an authenticated caller who is an admin,
or with the user-volumes feature disabled, takes the standard branch: hidden
denies; otherwise the caller can read, an admin keeps all four write
capabilities even under an ro rule, and a non-admin loses exactly the four
write capabilities exactly when the rule permission is ro. -/
theorem c5_volume_standard_branch (env : Env) (context : Context) (rel : String)
    (opts : Options) (u : User)
    (hu : context.user = some u) (hid : u.id ≠ "")
    (hstd : u.roles.contains "admin" = true ∨ env.featuresUserVolumes = false) :
    (getPerm env opts rel = Perm.hidden →
      (getVolumeAccess env context rel opts).canAccess = false)
    ∧ (getPerm env opts rel ≠ Perm.hidden →
        (getVolumeAccess env context rel opts).canAccess = true
        ∧ (getVolumeAccess env context rel opts).canRead = true
        ∧ (u.roles.contains "admin" = true →
            (getVolumeAccess env context rel opts).canWrite = true
            ∧ (getVolumeAccess env context rel opts).canDelete = true
            ∧ (getVolumeAccess env context rel opts).canUpload = true
            ∧ (getVolumeAccess env context rel opts).canCreateFolder = true)
        ∧ (u.roles.contains "admin" = false →
            ((getVolumeAccess env context rel opts).canWrite = false ↔
              getPerm env opts rel = Perm.ro)
            ∧ (getVolumeAccess env context rel opts).canDelete
                = (getVolumeAccess env context rel opts).canWrite
            ∧ (getVolumeAccess env context rel opts).canUpload
                = (getVolumeAccess env context rel opts).canWrite
            ∧ (getVolumeAccess env context rel opts).canCreateFolder
                = (getVolumeAccess env context rel opts).canWrite)) := by
  unfold getVolumeAccess
  dsimp only
  rcases hstd with hadm | hfeat
  all_goals repeat' split
  all_goals simp_all +contextual [createDeniedAccess]

/-- Witness for C5 at a concrete input: an ro rule on docs leaves the
administrator with full write capability on docs. -/
theorem c5_volume_standard_branch_witness :
    adminContext.user = some adminUser ∧ adminUser.id ≠ ""
    ∧ adminUser.roles.contains "admin" = true
    ∧ getPerm docsShareEnv noOptions "docs" ≠ Perm.hidden
    ∧ (getVolumeAccess docsShareEnv adminContext "docs" noOptions).canWrite = true :=
  ⟨rfl, by decide, by decide, by decide,
    (((c5_volume_standard_branch docsShareEnv adminContext "docs" noOptions adminUser
        rfl (by decide) (Or.inl (by decide))).2 (by decide)).2.2.1 (by decide)).1⟩

/-- A parsed share token is a nonempty segment, and only share-space paths
carry one. -/
theorem parsePathSpace_share_token (path t : String)
    (h : (parsePathSpace path).shareToken = some t) :
    (parsePathSpace path).space = Space.share ∧ t ≠ "" := by
  unfold parsePathSpace at h ⊢
  revert h
  cases hsegs : (jsSplit path '/').filter (fun s => s ≠ "") with
  | nil => intro h; simp at h
  | cons first rest =>
    intro h
    by_cases hp : first = "personal"
    · simp [hp] at h
    · by_cases hs : first = "share"
      · cases rest with
        | nil => simp [hp, hs] at h
        | cons tok inner =>
          dsimp only at h ⊢
          rw [if_neg hp, if_pos hs] at h ⊢
          dsimp only at h ⊢
          simp only [Option.some.injEq] at h
          refine ⟨by simp, ?_⟩
          have hmem : tok ∈ (jsSplit path '/').filter (fun s => s ≠ "") := by
            rw [hsegs]
            exact List.mem_cons_of_mem _ (List.mem_cons_self _ _)
          have hne : tok ≠ "" := by simpa using (List.mem_filter.mp hmem).2
          rw [← h]
          exact hne
      · simp [hp, hs] at h

/-- A guest-only caller is denied on every volume path. -/
theorem getVolumeAccess_guest_denied (env : Env) (ctx : Context) (rel : String)
    (opts : Options) (g : GuestSession)
    (hu : ctx.user = none) (hg : ctx.guestSession = some g) :
    (getVolumeAccess env ctx rel opts).canAccess = false := by
  unfold getVolumeAccess
  simp [hu, hg, createDeniedAccess]

/-- A guest-only caller is denied on every personal path. -/
theorem getPersonalAccess_guest_denied (ctx : Context) (g : GuestSession)
    (hu : ctx.user = none) (hg : ctx.guestSession = some g) :
    (getPersonalAccess ctx).canAccess = false := by
  unfold getPersonalAccess
  simp [hu, hg, createDeniedAccess]

/-- C3: a guest-only context is always denied on volume and personal paths;
a share path is evaluated normally, and for an anyone share that resolves
and is unexpired, access is granted only when the guest session is bound to
that very share, a mismatch being denied with the invalid-guest-session
reason. -/
theorem c3_guest_scoping (env : Env) (ctx : Context) (path : String)
    (opts : Options) (g : GuestSession)
    (hu : ctx.user = none) (hg : ctx.guestSession = some g) :
    (((parsePathSpace path).space = Space.volume
        ∨ (parsePathSpace path).space = Space.personal) →
      ((getAccessInfo env ctx path opts).1).canAccess = false)
    ∧ (∀ t share, (parsePathSpace path).shareToken = some t →
        lookupShare env opts t = some share →
        share.sharingType = "anyone" →
        env.isShareExpired share = false →
        (((getAccessInfo env ctx path opts).1).canAccess = true → g.shareId = share.id)
        ∧ (g.shareId ≠ share.id →
            ((getAccessInfo env ctx path opts).1).canAccess = false
            ∧ ((getAccessInfo env ctx path opts).1).denialReason
                = some "Invalid guest session for this share")) := by
  constructor
  · intro hsp
    unfold getAccessInfo
    dsimp only
    split
    · exact getVolumeAccess_guest_denied _ _ _ _ _ hu hg
    · exact getPersonalAccess_guest_denied _ _ hu hg
    · next heq => rcases hsp with h | h <;> simp [heq] at h
  · intro t share htok hshare htype hexp
    obtain ⟨hsp, htne⟩ := parsePathSpace_share_token path t htok
    have hD : (getAccessInfo env ctx path opts).1
        = (getShareAccess env ctx (some t) (parsePathSpace path).innerPath opts).1 := by
      unfold getAccessInfo
      dsimp only
      split
      · next heq => rw [heq] at hsp; simp at hsp
      · next heq => rw [heq] at hsp; simp at hsp
      · rw [htok]
    rw [hD]
    unfold getShareAccess
    dsimp only
    rw [if_neg htne, hshare]
    dsimp only
    rw [hexp, htype, hu, hg]
    rw [if_neg (by decide : ¬(false = true))]
    rw [if_neg (by decide : ¬("anyone" = "users"))]
    rw [if_pos (rfl : "anyone" = "anyone")]
    simp only [Option.isNone_none, Option.isNone_some, Bool.true_and]
    rw [if_neg (by decide : ¬(false = true))]
    split
    · next hne =>
      constructor
      · intro hca
        simp [createDeniedAccess] at hca
      · intro _
        simp [createDeniedAccess]
    · next hne =>
      have heqid : g.shareId = share.id := by
        by_contra hc
        exact hne hc
      constructor
      · intro _
        exact heqid
      · intro hc
        exact absurd heqid hc

/-- Witness for C3 at a concrete input: a guest bound to share s9 is denied
on the anyone share s1 with the invalid-guest-session reason. -/
theorem c3_guest_scoping_witness :
    guestOtherContext.user = none
    ∧ guestOtherContext.guestSession = some { shareId := "s9" }
    ∧ ((getAccessInfo docsShareEnv guestOtherContext "share/tok/file.txt"
          noOptions).1).canAccess = false
    ∧ ((getAccessInfo docsShareEnv guestOtherContext "share/tok/file.txt"
          noOptions).1).denialReason = some "Invalid guest session for this share" := by
  have h := ((c3_guest_scoping docsShareEnv guestOtherContext "share/tok/file.txt"
      noOptions { shareId := "s9" } rfl rfl).2 "tok" docsShare (by decide) (by decide)
      (by decide) (by decide)).2 (by decide)
  exact ⟨rfl, rfl, h.1, h.2⟩

/-- Every capping-step decision is either a denial record or a granted
share record. -/
theorem getShareAccessCapped_cases (env : Env) (context : Context) (share : Share)
    (innerPath : String) (opts : Options) :
    (∃ r, (getShareAccessCapped env context share innerPath opts).1
        = createDeniedAccess r)
    ∨ (∃ isOwner isReadWrite,
        (getShareAccessCapped env context share innerPath opts).1
          = grantShareAccess share isOwner isReadWrite) := by
  generalize hE : getShareAccessCapped env context share innerPath opts = p
  unfold getShareAccessCapped at hE
  dsimp only at hE
  repeat' split at hE
  all_goals subst hE
  all_goals
    first
    | exact Or.inl ⟨_, rfl⟩
    | exact Or.inr ⟨_, _, rfl⟩

/-- Every getShareAccess decision is either a denial record or a granted
share record: denial is a first-class value, produced only through
createDeniedAccess. -/
theorem getShareAccess_cases (env : Env) (context : Context)
    (shareToken : Option String) (innerPath : String) (opts : Options) :
    (∃ r, (getShareAccess env context shareToken innerPath opts).1
        = createDeniedAccess r)
    ∨ (∃ share isOwner isReadWrite,
        (getShareAccess env context shareToken innerPath opts).1
          = grantShareAccess share isOwner isReadWrite) := by
  generalize hE : getShareAccess env context shareToken innerPath opts = p
  unfold getShareAccess at hE
  dsimp only at hE
  repeat' split at hE
  all_goals subst hE
  all_goals
    first
    | exact Or.inl ⟨_, rfl⟩
    | exact Or.imp id
        (fun h => match h with | ⟨o, w, hw⟩ => ⟨_, o, w, hw⟩)
        (getShareAccessCapped_cases _ _ _ _ _)

/-- Every denied getShareAccess decision carries a populated denial
reason. -/
theorem getShareAccess_denied_reason (env : Env) (context : Context)
    (shareToken : Option String) (innerPath : String) (opts : Options)
    (h : ((getShareAccess env context shareToken innerPath opts).1).canAccess = false) :
    ((getShareAccess env context shareToken innerPath opts).1).denialReason.isSome
      = true := by
  rcases getShareAccess_cases env context shareToken innerPath opts with
    ⟨r, hr⟩ | ⟨share, isOwner, isReadWrite, hg⟩
  · rw [hr]
    simp [createDeniedAccess]
  · rw [hg] at h
    simp [grantShareAccess] at h

/-- The capping step denies every user_volume-sourced share whose source
volume is invalid, missing, or owned by someone other than the share
owner. -/
theorem getShareAccessCapped_uv_denied (env : Env) (context : Context)
    (share : Share) (innerPath : String) (opts : Options)
    (hspc : share.sourceSpace = "user_volume")
    (hbad : shareSourceSegments share = []
      ∨ (∃ volumeId rest, shareSourceSegments share = volumeId :: rest
          ∧ lookupUserVolume env opts volumeId = none)
      ∨ (∃ volumeId rest v, shareSourceSegments share = volumeId :: rest
          ∧ lookupUserVolume env opts volumeId = some v
          ∧ v.userId ≠ share.ownerId)) :
    ((getShareAccessCapped env context share innerPath opts).1).canAccess = false := by
  unfold getShareAccessCapped
  dsimp only
  rw [hspc]
  rw [if_neg (by decide : ¬("user_volume" = "volume"))]
  rw [if_pos (rfl : "user_volume" = "user_volume")]
  rcases hbad with hseg | ⟨volumeId, rest, hseg, hlv⟩ | ⟨volumeId, rest, v, hseg, hlv, hown⟩
  · rw [hseg]
    simp [createDeniedAccess]
  · rw [hseg]
    dsimp only
    rw [hlv]
    simp [createDeniedAccess]
  · rw [hseg]
    dsimp only
    rw [hlv]
    dsimp only
    rw [if_pos hown]
    simp [createDeniedAccess]

/-- Once a token resolves to a share, getShareAccess either denies at one of
the gates or hands over to the capping step with the recorded cache. -/
theorem getShareAccess_resolved_cases (env : Env) (context : Context)
    (t innerPath : String) (opts : Options) (share : Share)
    (hs : lookupShare env opts t = some share) :
    (∃ r, (getShareAccess env context (some t) innerPath opts).1
        = createDeniedAccess r)
    ∨ (getShareAccess env context (some t) innerPath opts).1
        = (getShareAccessCapped env context share innerPath
            (recordShare env opts t)).1 := by
  generalize hE : getShareAccess env context (some t) innerPath opts = p
  unfold getShareAccess at hE
  dsimp only at hE
  by_cases ht : t = ""
  · rw [if_pos ht] at hE
    exact Or.inl ⟨_, by rw [← hE]⟩
  · rw [if_neg ht, hs] at hE
    dsimp only at hE
    repeat' split at hE
    all_goals
      first
      | exact Or.inl ⟨_, by rw [← hE]⟩
      | exact Or.inr (by rw [← hE])

/-- C7: every expected share-path policy failure is returned as a denial
decision value, never thrown: a missing token, an unknown token, an expired
share, an invalid or missing source user volume, and a user volume whose
owner differs from the share owner each produce canAccess false with a
populated denial reason.  (The embedding of getShareAccess is a total
function into decision records, mirroring the source, which returns
createDeniedAccess in each of these cases.) -/
theorem c7_share_denials_are_values (env : Env) (context : Context)
    (shareToken : Option String) (innerPath : String) (opts : Options)
    (h : shareToken = none
      ∨ (∃ t, shareToken = some t ∧ lookupShare env opts t = none)
      ∨ (∃ t share, shareToken = some t ∧ lookupShare env opts t = some share
          ∧ env.isShareExpired share = true)
      ∨ (∃ t share, shareToken = some t ∧ lookupShare env opts t = some share
          ∧ share.sourceSpace = "user_volume" ∧ shareSourceSegments share = [])
      ∨ (∃ t share volumeId rest, shareToken = some t
          ∧ lookupShare env opts t = some share
          ∧ share.sourceSpace = "user_volume"
          ∧ shareSourceSegments share = volumeId :: rest
          ∧ lookupUserVolume env opts volumeId = none)
      ∨ (∃ t share volumeId rest v, shareToken = some t
          ∧ lookupShare env opts t = some share
          ∧ share.sourceSpace = "user_volume"
          ∧ shareSourceSegments share = volumeId :: rest
          ∧ lookupUserVolume env opts volumeId = some v
          ∧ v.userId ≠ share.ownerId)) :
    ((getShareAccess env context shareToken innerPath opts).1).canAccess = false
    ∧ ((getShareAccess env context shareToken innerPath opts).1).denialReason.isSome
        = true := by
  have hca : ((getShareAccess env context shareToken innerPath opts).1).canAccess
      = false := by
    rcases h with h | ⟨t, ht, hnone⟩ | ⟨t, share, ht, hs, hexp⟩
      | ⟨t, share, ht, hs, hspc, hseg⟩
      | ⟨t, share, volumeId, rest, ht, hs, hspc, hseg, hlv⟩
      | ⟨t, share, volumeId, rest, v, ht, hs, hspc, hseg, hlv, hown⟩
    · subst h
      simp [getShareAccess, createDeniedAccess]
    · subst ht
      unfold getShareAccess
      dsimp only
      by_cases htz : t = ""
      · rw [if_pos htz]
        simp [createDeniedAccess]
      · rw [if_neg htz, hnone]
        simp [createDeniedAccess]
    · subst ht
      unfold getShareAccess
      dsimp only
      by_cases htz : t = ""
      · rw [if_pos htz]
        simp [createDeniedAccess]
      · rw [if_neg htz, hs]
        dsimp only
        rw [hexp]
        simp [createDeniedAccess]
    · subst ht
      rcases getShareAccess_resolved_cases env context t innerPath opts share hs with
        ⟨r, hr⟩ | hcap
      · rw [hr]
        simp [createDeniedAccess]
      · rw [hcap]
        exact getShareAccessCapped_uv_denied _ _ _ _ _ hspc (Or.inl hseg)
    · subst ht
      rcases getShareAccess_resolved_cases env context t innerPath opts share hs with
        ⟨r, hr⟩ | hcap
      · rw [hr]
        simp [createDeniedAccess]
      · rw [hcap]
        refine getShareAccessCapped_uv_denied _ _ _ _ _ hspc (Or.inr (Or.inl ?_))
        exact ⟨volumeId, rest, hseg, by rw [lookupUserVolume_recordShare_eq]; exact hlv⟩
    · subst ht
      rcases getShareAccess_resolved_cases env context t innerPath opts share hs with
        ⟨r, hr⟩ | hcap
      · rw [hr]
        simp [createDeniedAccess]
      · rw [hcap]
        refine getShareAccessCapped_uv_denied _ _ _ _ _ hspc (Or.inr (Or.inr ?_))
        exact ⟨volumeId, rest, v, hseg, by rw [lookupUserVolume_recordShare_eq]; exact hlv, hown⟩
  exact ⟨hca, getShareAccess_denied_reason _ _ _ _ _ hca⟩

/-- Witness for C7 at a concrete input: a missing token yields a denial
value with a populated reason. -/
theorem c7_share_denials_are_values_witness :
    ((getShareAccess emptyEnv adminContext none "" noOptions).1).canAccess = false
    ∧ ((getShareAccess emptyEnv adminContext none "" noOptions).1).denialReason.isSome
        = true :=
  c7_share_denials_are_values emptyEnv adminContext none "" noOptions (Or.inl rfl)

/-- The capping step returns read-only capabilities whenever the evaluated
underlying permission is ro (volume source) or the owning user volume is
readonly (user_volume source). -/
theorem getShareAccessCapped_readonly (env : Env) (context : Context)
    (share : Share) (innerPath : String) (opts : Options)
    (hcap : (share.sourceSpace = "volume"
        ∧ getPerm env opts (shareVolumeCombined share innerPath) = Perm.ro)
      ∨ (share.sourceSpace = "user_volume"
        ∧ (∀ volumeId rest v, shareSourceSegments share = volumeId :: rest →
            lookupUserVolume env opts volumeId = some v →
            v.accessMode = "readonly"))) :
    ((getShareAccessCapped env context share innerPath opts).1).canWrite = false
    ∧ ((getShareAccessCapped env context share innerPath opts).1).canDelete = false
    ∧ ((getShareAccessCapped env context share innerPath opts).1).canUpload = false
    ∧ ((getShareAccessCapped env context share innerPath opts).1).canCreateFolder
        = false := by
  unfold getShareAccessCapped
  dsimp only
  rcases hcap with ⟨hspc, hro⟩ | ⟨hspc, hvols⟩
  · rw [hspc, if_pos (rfl : "volume" = "volume"), hro]
    rw [if_neg (by decide : ¬(Perm.ro = Perm.hidden))]
    simp [grantShareAccess]
  · rw [hspc]
    rw [if_neg (by decide : ¬("user_volume" = "volume"))]
    rw [if_pos (rfl : "user_volume" = "user_volume")]
    cases hseg : shareSourceSegments share with
    | nil => simp [createDeniedAccess]
    | cons volumeId rest =>
      dsimp only
      cases hlv : lookupUserVolume env opts volumeId with
      | none => simp [createDeniedAccess]
      | some v =>
        dsimp only
        split
        · simp [createDeniedAccess]
        · split
          · simp [createDeniedAccess]
          · simp [grantShareAccess, hvols volumeId rest v hseg hlv]

/-- C1, counterexample to the claim as stated: the underlying permission is
recomputed on the combined inner path, so a non-recursive ro rule on the
source path of a directory share does not cap paths deeper inside it.  Here
the source path docs resolves to ro and the share is anyone/readwrite, yet
the matching guest receives canWrite true on the inner path file.txt. -/
theorem c1_capping_counterexample :
    createPermissionResolver docsShareEnv.rules docsShare.sourcePath = Perm.ro
    ∧ docsShare.accessMode = "readwrite"
    ∧ ((getAccessInfo docsShareEnv guestS1Context "share/tok/file.txt"
          noOptions).1).canWrite = true :=
  ⟨by decide, by decide, by decide⟩

/-- C1 amended: for every resolved share with accessMode readwrite, when the
underlying path the engine actually evaluates for the accessed inner path
resolves to ro (volume source), or the owning user volume is readonly
(user_volume source), the decision has canWrite, canDelete, canUpload and
canCreateFolder all false; the cap is recomputed per accessed path. -/
theorem c1_share_write_capping (env : Env) (context : Context) (tok innerPath : String)
    (opts : Options) (share : Share)
    (hs : lookupShare env opts tok = some share)
    (hrw : share.accessMode = "readwrite")
    (hcap : (share.sourceSpace = "volume"
        ∧ getPerm env opts (shareVolumeCombined share innerPath) = Perm.ro)
      ∨ (share.sourceSpace = "user_volume"
        ∧ (∀ volumeId rest v, shareSourceSegments share = volumeId :: rest →
            lookupUserVolume env opts volumeId = some v →
            v.accessMode = "readonly"))) :
    ((getShareAccess env context (some tok) innerPath opts).1).canWrite = false
    ∧ ((getShareAccess env context (some tok) innerPath opts).1).canDelete = false
    ∧ ((getShareAccess env context (some tok) innerPath opts).1).canUpload = false
    ∧ ((getShareAccess env context (some tok) innerPath opts).1).canCreateFolder
        = false := by
  rcases getShareAccess_resolved_cases env context tok innerPath opts share hs with
    ⟨r, hr⟩ | hcapped
  · rw [hr]
    simp [createDeniedAccess]
  · rw [hcapped]
    refine getShareAccessCapped_readonly env context share innerPath
      (recordShare env opts tok) ?_
    rcases hcap with ⟨hspc, hro⟩ | ⟨hspc, hvols⟩
    · exact Or.inl ⟨hspc, by rw [getPerm_recordShare_eq]; exact hro⟩
    · refine Or.inr ⟨hspc, fun volumeId rest v hseg hlv => ?_⟩
      rw [lookupUserVolume_recordShare_eq] at hlv
      exact hvols volumeId rest v hseg hlv

/-- Witness for the amended C1 at a concrete input: at the share root the
combined underlying path is the source path docs, which resolves to ro, and
the readwrite grant of the anyone share is capped to read-only. -/
theorem c1_share_write_capping_witness :
    lookupShare docsShareEnv noOptions "tok" = some docsShare
    ∧ docsShare.accessMode = "readwrite"
    ∧ getPerm docsShareEnv noOptions (shareVolumeCombined docsShare "") = Perm.ro
    ∧ ((getShareAccess docsShareEnv guestS1Context (some "tok") ""
          noOptions).1).canWrite = false :=
  ⟨by decide, by decide, by decide,
    (c1_share_write_capping docsShareEnv guestS1Context "tok" "" noOptions docsShare
      (by decide) (by decide) (Or.inl ⟨by decide, by decide⟩)).1⟩

/-- C6: each known action maps to exactly one capability flag of the
decision (list and read to canRead; write and rename to canWrite; delete to
canDelete; upload to canUpload; createFolder to canCreateFolder; download
to canDownload; createShare to canShare), the facade allows exactly when
access is granted and that flag is set, and every unknown action is denied,
with the distinct unknown-action reason whenever access itself was granted;
the facade never allows by default. -/
theorem c6_action_capability_mapping (env : Env) (context : Context)
    (logicalPath action : String) (opts : Options) :
    (actionToFlag "list" = some CapFlag.canRead
      ∧ actionToFlag "read" = some CapFlag.canRead
      ∧ actionToFlag "write" = some CapFlag.canWrite
      ∧ actionToFlag "rename" = some CapFlag.canWrite
      ∧ actionToFlag "delete" = some CapFlag.canDelete
      ∧ actionToFlag "upload" = some CapFlag.canUpload
      ∧ actionToFlag "createFolder" = some CapFlag.canCreateFolder
      ∧ actionToFlag "download" = some CapFlag.canDownload
      ∧ actionToFlag "createShare" = some CapFlag.canShare)
    ∧ ((authorizePath env context logicalPath action opts).1).allowed
        = (((getAccessInfo env context logicalPath opts).1).canAccess
            && (match actionToFlag action with
                | some flag => decisionFlag ((getAccessInfo env context logicalPath opts).1) flag
                | none => false))
    ∧ (actionToFlag action = none →
        ((authorizePath env context logicalPath action opts).1).allowed = false
        ∧ (((getAccessInfo env context logicalPath opts).1).canAccess = true →
            ((authorizePath env context logicalPath action opts).1).accessInfo.denialReason
              = some "Unknown action")) := by
  refine ⟨by decide, ?_, ?_⟩
  · unfold authorizePath
    dsimp only
    cases hca : ((getAccessInfo env context logicalPath opts).1).canAccess with
    | false => simp [hca]
    | true => cases hfl : actionToFlag action <;> simp [hca, hfl]
  · intro hnone
    unfold authorizePath
    dsimp only
    cases hca : ((getAccessInfo env context logicalPath opts).1).canAccess with
    | false => simp [hca]
    | true => simp [hca, hnone]

/-- Witness for C6 at a concrete input: the unknown action frobnicate is
denied with the unknown-action reason on an accessible path. -/
theorem c6_action_capability_mapping_witness :
    actionToFlag "frobnicate" = none
    ∧ ((authorizePath emptyEnv adminContext "docs" "frobnicate" noOptions).1).allowed
        = false
    ∧ ((authorizePath emptyEnv adminContext "docs" "frobnicate"
          noOptions).1).accessInfo.denialReason = some "Unknown action" := by
  have h := (c6_action_capability_mapping emptyEnv adminContext "docs" "frobnicate"
      noOptions).2.2 (by decide)
  exact ⟨by decide, h.1, h.2 (by decide)⟩

/-- The capping step returns the options unchanged, or with exactly the
matched source volume recorded. -/
theorem getShareAccessCapped_snd_cases (env : Env) (context : Context) (share : Share)
    (innerPath : String) (opts : Options) :
    (getShareAccessCapped env context share innerPath opts).2 = opts
    ∨ (∃ volumeId rest, shareSourceSegments share = volumeId :: rest
        ∧ (getShareAccessCapped env context share innerPath opts).2
            = recordUserVolume env opts volumeId) := by
  generalize hE : getShareAccessCapped env context share innerPath opts = p
  unfold getShareAccessCapped at hE
  dsimp only at hE
  repeat' split at hE
  all_goals subst hE
  all_goals
    first
    | exact Or.inl rfl
    | exact Or.inr ⟨_, _, (by assumption), rfl⟩

/-- getShareAccess returns the options unchanged, with the share recorded,
or with the share and its matched source volume recorded. -/
theorem getShareAccess_snd_cases (env : Env) (context : Context) (t innerPath : String)
    (opts : Options) :
    (getShareAccess env context (some t) innerPath opts).2 = opts
    ∨ (getShareAccess env context (some t) innerPath opts).2 = recordShare env opts t
    ∨ (∃ share volumeId rest, lookupShare env opts t = some share
        ∧ shareSourceSegments share = volumeId :: rest
        ∧ (getShareAccess env context (some t) innerPath opts).2
            = recordUserVolume env (recordShare env opts t) volumeId) := by
  by_cases ht : t = ""
  · refine Or.inl ?_
    unfold getShareAccess
    dsimp only
    rw [if_pos ht]
  · generalize hE : getShareAccess env context (some t) innerPath opts = p
    unfold getShareAccess at hE
    dsimp only at hE
    rw [if_neg ht] at hE
    cases hs : lookupShare env opts t with
    | none =>
      rw [hs] at hE
      dsimp only at hE
      subst hE
      exact Or.inr (Or.inl rfl)
    | some share =>
      rw [hs] at hE
      dsimp only at hE
      repeat' split at hE
      all_goals subst hE
      all_goals
        first
        | exact Or.inr (Or.inl rfl)
        | rcases getShareAccessCapped_snd_cases env context share innerPath
            (recordShare env opts t) with hsc | ⟨volumeId, rest, hseg, hsc⟩
          · exact Or.inr (Or.inl hsc)
          · exact Or.inr (Or.inr ⟨share, volumeId, rest, rfl, hseg, hsc⟩)

/-- The decision of the capping step depends on the options only through the
rule resolver and the lookup of the matched source volume. -/
theorem getShareAccessCapped_fst_congr (env : Env) (context : Context) (share : Share)
    (innerPath : String) (opts opts' : Options)
    (hperm : ∀ p, getPerm env opts' p = getPerm env opts p)
    (hluv : ∀ volumeId rest, shareSourceSegments share = volumeId :: rest →
        lookupUserVolume env opts' volumeId = lookupUserVolume env opts volumeId) :
    (getShareAccessCapped env context share innerPath opts').1
      = (getShareAccessCapped env context share innerPath opts).1 := by
  unfold getShareAccessCapped
  dsimp only
  simp only [getPerm_recordUserVolume_eq, hperm]
  split
  · repeat' split
    all_goals rfl
  · split
    · cases hseg : shareSourceSegments share with
      | nil => rfl
      | cons volumeId rest =>
        dsimp only
        rw [hluv volumeId rest hseg]
        cases hlv : lookupUserVolume env opts volumeId with
        | none => rfl
        | some v =>
          dsimp only
          repeat' split
          all_goals rfl
    · rfl

/-- The decision of getShareAccess depends on the options only through the
share lookup, the rule resolver, and the lookup of the matched source
volume. -/
theorem getShareAccess_fst_congr (env : Env) (context : Context) (t innerPath : String)
    (opts opts' : Options)
    (hls : lookupShare env opts' t = lookupShare env opts t)
    (hperm : ∀ p, getPerm env opts' p = getPerm env opts p)
    (hluv : ∀ share volumeId rest, lookupShare env opts t = some share →
        shareSourceSegments share = volumeId :: rest →
        lookupUserVolume env (recordShare env opts' t) volumeId
          = lookupUserVolume env (recordShare env opts t) volumeId) :
    (getShareAccess env context (some t) innerPath opts').1
      = (getShareAccess env context (some t) innerPath opts).1 := by
  unfold getShareAccess
  dsimp only
  by_cases ht : t = ""
  · simp only [if_pos ht]
  · simp only [if_neg ht]
    rw [hls]
    cases hs : lookupShare env opts t with
    | none => rfl
    | some share =>
      dsimp only
      repeat' split
      all_goals
        first
        | rfl
        | exact getShareAccessCapped_fst_congr env context share innerPath
            (recordShare env opts t) (recordShare env opts' t)
            (fun p => by rw [getPerm_recordShare_eq, getPerm_recordShare_eq, hperm p])
            (fun volumeId rest hseg => hluv share volumeId rest hs hseg)

/-- Running getShareAccess a second time with the options the first run
returned yields the same decision. -/
theorem getShareAccess_idem (env : Env) (context : Context) (t innerPath : String)
    (opts : Options) :
    (getShareAccess env context (some t) innerPath
        (getShareAccess env context (some t) innerPath opts).2).1
      = (getShareAccess env context (some t) innerPath opts).1 := by
  apply getShareAccess_fst_congr
  · rcases getShareAccess_snd_cases env context t innerPath opts with
      h2 | h2 | ⟨share, volumeId, rest, hs, hseg, h2⟩
    · rw [h2]
    · rw [h2, lookupShare_recordShare_eq]
    · rw [h2, lookupShare_recordUserVolume_eq, lookupShare_recordShare_eq]
  · intro p
    rcases getShareAccess_snd_cases env context t innerPath opts with
      h2 | h2 | ⟨share, volumeId, rest, hs, hseg, h2⟩
    · rw [h2]
    · rw [h2, getPerm_recordShare_eq]
    · rw [h2, getPerm_recordUserVolume_eq, getPerm_recordShare_eq]
  · intro share volumeId rest hs hseg
    rcases getShareAccess_snd_cases env context t innerPath opts with
      h2 | h2 | ⟨share2, volumeId2, rest2, hs2, hseg2, h2⟩
    · rw [h2]
    · rw [h2]
      simp only [lookupUserVolume_recordShare_eq]
    · have hshare2 : share2 = share := by
        rw [hs] at hs2
        exact (Option.some.injEq _ _ ▸ hs2).symm
      subst hshare2
      have hvid : volumeId2 = volumeId := by
        rw [hseg] at hseg2
        exact (List.cons.injEq _ _ _ _ ▸ hseg2).1.symm
      subst hvid
      rw [h2]
      simp only [lookupUserVolume_recordShare_eq, lookupUserVolume_recordUserVolume_eq]

/-- C9: evaluating the engine twice with the same caller context, path and
collaborator snapshot, threading the request-scoped caches the first call
returned, yields an identical decision record.  The embedding is a pure
function of the context, the path, the options and the collaborator
snapshot, which it never modifies: the only state the source mutates, the
request-scoped caches, is threaded explicitly here, and cache insertions
only record values the collaborator stores returned. -/
theorem c9_decide_idempotent (env : Env) (context : Context) (relativePath : String)
    (opts : Options) :
    (getAccessInfo env context relativePath
        (getAccessInfo env context relativePath opts).2).1
      = (getAccessInfo env context relativePath opts).1 := by
  unfold getAccessInfo
  dsimp only
  split
  · rfl
  · rfl
  · cases htok : (parsePathSpace relativePath).shareToken with
    | none => rfl
    | some t => exact getShareAccess_idem env context t _ opts

/-- Under a normalized, nonempty stored rule path, the source match test is
exactly the matching discipline the claim states: exact equality, or, for a
recursive rule, a segment-aligned continuation (the path goes on with a
slash right after the rule path, so a/b governs a/b/c/d.txt but never
a/bc). -/
theorem ruleMatches_iff_spec (rule : Rule) (p : String)
    (hr : normalizeRelativePath rule.path = rule.path) (hne : rule.path ≠ "") :
    ruleMatches p rule = true ↔ specRuleMatches p rule := by
  unfold ruleMatches specRuleMatches
  dsimp only
  rw [hr, if_neg hne]
  cases hrec : rule.recursive with
  | true =>
    rw [if_pos rfl]
    rw [Bool.or_eq_true, beq_iff_eq, jsStartsWith_iff]
    constructor
    · rintro (h | ⟨t, ht⟩)
      · exact Or.inl h
      · exact Or.inr ⟨rfl, t, by rw [ht, String.append_assoc]⟩
    · rintro (h | ⟨-, t, ht⟩)
      · exact Or.inl h
      · exact Or.inr ⟨t, by rw [ht, String.append_assoc]⟩
  | false =>
    rw [if_neg (by simp : ¬(false = true))]
    rw [beq_iff_eq]
    constructor
    · exact fun h => Or.inl h
    · rintro (h | ⟨hcontra, -⟩)
      · exact h
      · exact absurd hcontra (by simp [hrec])

/-- find? returns the first element of the list satisfying the test. -/
theorem find?_first_of_split (q : Rule → Bool) :
    ∀ (l₁ : List Rule) (r : Rule) (l₂ : List Rule),
      (∀ x ∈ l₁, ¬ q x = true) → q r = true →
      (l₁ ++ r :: l₂).find? q = some r := by
  intro l₁
  induction l₁ with
  | nil =>
    intro r l₂ _ hr
    simp [List.find?_cons_of_pos, hr]
  | cons a as ih =>
    intro r l₂ hnone hr
    rw [List.cons_append, List.find?_cons_of_neg]
    · exact ih r l₂ (fun x hx => hnone x (List.mem_cons_of_mem _ hx)) hr
    · exact hnone a (List.mem_cons_self _ _)

/-- C4: over rule lists whose stored paths are normalized and nonempty (the
data-model invariant), and for every normalized path, the resolver returns
the permission of the first rule in stored order matching per the claim
discipline (exact equality, or segment-aligned continuation when
recursive), and rw when no rule matches; the closing conjuncts instantiate
the claim scenarios: a recursive ro rule on a/b governs a/b/c/d.txt but not
a/bc, and a non-recursive rule on a/b does not govern a/b/c/d.txt. -/
theorem c4_resolver_first_match (rules : List Rule) (p : String)
    (hrules : ∀ r ∈ rules, normalizeRelativePath r.path = r.path ∧ r.path ≠ "")
    (hp : normalizeRelativePath p = p) :
    ((∀ r ∈ rules, ¬ specRuleMatches p r) →
        createPermissionResolver rules p = Perm.rw)
    ∧ (∀ l₁ r l₂, rules = l₁ ++ r :: l₂ → specRuleMatches p r →
        (∀ r2 ∈ l₁, ¬ specRuleMatches p r2) →
        createPermissionResolver rules p = r.permissions)
    ∧ createPermissionResolver [ruleAbRecursive] "a/b/c/d.txt" = Perm.ro
    ∧ createPermissionResolver [ruleAbRecursive] "a/bc" = Perm.rw
    ∧ createPermissionResolver [ruleAbExact] "a/b/c/d.txt" = Perm.rw := by
  refine ⟨?_, ?_, by decide, by decide, by decide⟩
  · intro hnone
    unfold createPermissionResolver
    dsimp only
    rw [hp]
    have hfind : rules.find? (fun rule => ruleMatches p rule) = none := by
      rw [List.find?_eq_none]
      intro x hx hqx
      exact hnone x hx
        ((ruleMatches_iff_spec x p (hrules x hx).1 (hrules x hx).2).mp hqx)
    rw [hfind]
  · intro l₁ r l₂ hsplit hmatch hnone
    subst hsplit
    unfold createPermissionResolver
    dsimp only
    rw [hp]
    have hrmem : r ∈ l₁ ++ r :: l₂ := by simp
    have hq : ruleMatches p r = true :=
      (ruleMatches_iff_spec r p (hrules r hrmem).1 (hrules r hrmem).2).mpr hmatch
    have hfn : ∀ x ∈ l₁, ¬ ruleMatches p x = true := by
      intro x hx hqx
      have hxmem : x ∈ l₁ ++ r :: l₂ := List.mem_append_left _ hx
      exact hnone x hx
        ((ruleMatches_iff_spec x p (hrules x hxmem).1 (hrules x hxmem).2).mp hqx)
    rw [find?_first_of_split (fun rule => ruleMatches p rule) l₁ r l₂ hfn hq]

/-- Witness for C4 at a concrete input: the recursive ro rule on a/b governs
the deeper path a/b/c/d.txt as the first and only match. -/
theorem c4_resolver_first_match_witness :
    (∀ r ∈ [ruleAbRecursive], normalizeRelativePath r.path = r.path ∧ r.path ≠ "")
    ∧ normalizeRelativePath "a/b/c/d.txt" = "a/b/c/d.txt"
    ∧ createPermissionResolver [ruleAbRecursive] "a/b/c/d.txt" = Perm.ro := by
  have hrules : ∀ r ∈ [ruleAbRecursive],
      normalizeRelativePath r.path = r.path ∧ r.path ≠ "" := by
    intro r hr
    rw [List.mem_singleton] at hr
    subst hr
    exact ⟨by decide, by decide⟩
  have hm : specRuleMatches "a/b/c/d.txt" ruleAbRecursive :=
    Or.inr ⟨by decide, "c/d.txt", by decide⟩
  have h := (c4_resolver_first_match [ruleAbRecursive] "a/b/c/d.txt" hrules
      (by decide)).2.1 [] ruleAbRecursive [] rfl hm (by intro r2 hr2; simp at hr2)
  exact ⟨hrules, by decide, by simpa using h⟩

/-- With no share cache supplied, recording a share is a no-op. -/
theorem recordShare_of_none (env : Env) (opts : Options) (tok : String)
    (h : opts.shareCache = none) : recordShare env opts tok = opts := by
  unfold recordShare cachedShare
  rw [h]

/-- With no user-volume cache supplied, recording a user volume is a
no-op. -/
theorem recordUserVolume_of_none (env : Env) (opts : Options) (volumeId : String)
    (h : opts.userVolumeCache = none) : recordUserVolume env opts volumeId = opts := by
  unfold recordUserVolume cachedUserVolume
  rw [h]

/-- With no caches supplied, the engine returns the options unchanged. -/
theorem getAccessInfo_snd_of_no_caches (env : Env) (context : Context)
    (relativePath : String) (opts : Options)
    (h1 : opts.shareCache = none) (h2 : opts.userVolumeCache = none) :
    (getAccessInfo env context relativePath opts).2 = opts := by
  unfold getAccessInfo
  dsimp only
  split
  · rfl
  · rfl
  · cases htok : (parsePathSpace relativePath).shareToken with
    | none => rfl
    | some t =>
      rcases getShareAccess_snd_cases env context t
          (parsePathSpace relativePath).innerPath opts with
        hs | hs | ⟨share, volumeId, rest, _, _, hs⟩
      · exact hs
      · rw [hs, recordShare_of_none env opts t h1]
      · rw [hs, recordShare_of_none env opts t h1,
          recordUserVolume_of_none env opts volumeId h2]

/-- When every failing stat carries a swallowed error code, the listing loop
never aborts. -/
theorem listItemsGo_ok_of_skips (env : Env) (req : ListingRequest) :
    ∀ (l : List String) (opts : Options),
      (∀ name ∈ l, ∀ code, req.stat name = StatResult.err code →
        statSkipCodes.contains code = true) →
      ∃ items, listItemsGo env req l opts = ListOutcome.ok items := by
  intro l
  induction l with
  | nil => exact fun opts _ => ⟨[], rfl⟩
  | cons name rest ih =>
    intro opts h
    unfold listItemsGo
    cases hst : req.stat name with
    | err code =>
      dsimp only
      rw [if_pos (h name (List.mem_cons_self _ _) code hst)]
      exact ih opts (fun n hn c hc => h n (List.mem_cons_of_mem _ hn) c hc)
    | ok stats =>
      dsimp only
      have hrest := ih (getAccessInfo env req.context
        (combineRelativePath req.parentLogicalPath name) opts).2
        (fun n hn c hc => h n (List.mem_cons_of_mem _ hn) c hc)
      obtain ⟨items, hitems⟩ := hrest
      cases hacc : ((getAccessInfo env req.context
          (combineRelativePath req.parentLogicalPath name) opts).1).canAccess with
      | false =>
        rw [if_pos (by decide : (!false) = true)]
        exact ⟨items, hitems⟩
      | true =>
        rw [if_neg (by decide : ¬((!true) = true))]
        rw [hitems]
        exact ⟨_, rfl⟩

/-- Every item a successful listing loop returns stems from an entry of the
list that stat-ed successfully and whose child decision granted access. -/
theorem listItemsGo_item_source (env : Env) (req : ListingRequest) :
    ∀ (l : List String) (opts : Options),
      opts.shareCache = none → opts.userVolumeCache = none →
      ∀ (items : List Item), listItemsGo env req l opts = ListOutcome.ok items →
      ∀ item ∈ items, ∃ name ∈ l, item.name = name
        ∧ (∃ stats, req.stat name = StatResult.ok stats)
        ∧ ((getAccessInfo env req.context
            (combineRelativePath req.parentLogicalPath name) opts).1).canAccess
            = true := by
  intro l
  induction l with
  | nil =>
    intro opts _ _ items hok item hmem
    unfold listItemsGo at hok
    simp only [ListOutcome.ok.injEq] at hok
    subst hok
    simp at hmem
  | cons name rest ih =>
    intro opts h1 h2 items hok item hmem
    unfold listItemsGo at hok
    cases hst : req.stat name with
    | err code =>
      rw [hst] at hok
      dsimp only at hok
      split at hok
      · obtain ⟨n, hn, hrest⟩ := ih opts h1 h2 items hok item hmem
        exact ⟨n, List.mem_cons_of_mem _ hn, hrest⟩
      · simp at hok
    | ok stats =>
      rw [hst] at hok
      dsimp only at hok
      rw [getAccessInfo_snd_of_no_caches env req.context
        (combineRelativePath req.parentLogicalPath name) opts h1 h2] at hok
      cases hacc : ((getAccessInfo env req.context
          (combineRelativePath req.parentLogicalPath name) opts).1).canAccess with
      | false =>
        rw [hacc] at hok
        rw [if_pos (by decide : (!false) = true)] at hok
        obtain ⟨n, hn, hrest⟩ := ih opts h1 h2 items hok item hmem
        exact ⟨n, List.mem_cons_of_mem _ hn, hrest⟩
      | true =>
        rw [hacc] at hok
        rw [if_neg (by decide : ¬((!true) = true))] at hok
        cases hrec : listItemsGo env req rest opts with
        | ok items2 =>
          rw [hrec] at hok
          simp only [ListOutcome.ok.injEq] at hok
          subst hok
          rcases List.mem_cons.mp hmem with hitem | hitem
          · subst hitem
            exact ⟨name, List.mem_cons_self _ _, rfl, ⟨stats, hst⟩, hacc⟩
          · obtain ⟨n, hn, hrest⟩ := ih opts h1 h2 items2 hrec item hitem
            exact ⟨n, List.mem_cons_of_mem _ hn, hrest⟩
        | fsError code =>
          rw [hrec] at hok
          simp at hok

/-- C8: with no caches supplied, a listing whose failing stats all carry
swallowed error codes returns items rather than aborting; a child entry is
absent from the result whenever its per-child decision denies access or its
stat failed with a swallowed code; and on the spec scenario, where docs
holds a.txt with no rule and secret.txt under a hidden rule, the listing
returns only a.txt. -/
theorem c8_listing_filters_hidden_children (env : Env) (req : ListingRequest)
    (hsc : req.shareCache = none) (huvc : req.userVolumeCache = none) :
    ((∀ name code, req.stat name = StatResult.err code →
        statSkipCodes.contains code = true) →
      ∃ items, listDirectoryItems env req = ListOutcome.ok items)
    ∧ (∀ items name, listDirectoryItems env req = ListOutcome.ok items →
        (((getAccessInfo env req.context
            (combineRelativePath req.parentLogicalPath name)
            (listingAccessOptions req)).1).canAccess = false
          ∨ (∃ code, req.stat name = StatResult.err code
              ∧ statSkipCodes.contains code = true)) →
        ∀ item ∈ items, item.name ≠ name)
    ∧ listDirectoryItems secretEnv secretListingReq = ListOutcome.ok [itemATxt] := by
  refine ⟨?_, ?_, by decide⟩
  · intro hskips
    exact listItemsGo_ok_of_skips env req (listingEntries env req)
      (listingAccessOptions req) (fun n _ c hc => hskips n c hc)
  · intro items name hok hbad item hmem hname
    have hopts1 : (listingAccessOptions req).shareCache = none := by
      unfold listingAccessOptions
      exact hsc
    have hopts2 : (listingAccessOptions req).userVolumeCache = none := by
      unfold listingAccessOptions
      exact huvc
    obtain ⟨n, _, hnm, ⟨stats, hstat⟩, hacc⟩ :=
      listItemsGo_item_source env req (listingEntries env req)
        (listingAccessOptions req) hopts1 hopts2 items hok item hmem
    have hn : n = name := by rw [← hnm, hname]
    subst hn
    rcases hbad with hdenied | ⟨code, hcode, -⟩
    · rw [hacc] at hdenied
      exact Bool.noConfusion hdenied
    · rw [hstat] at hcode
      exact StatResult.noConfusion hcode

/-- Witness for C8 at a concrete input: in the spec scenario the hidden
child secret.txt is absent from the returned items. -/
theorem c8_listing_filters_hidden_children_witness :
    secretListingReq.shareCache = none
    ∧ ((getAccessInfo secretEnv secretListingReq.context
        (combineRelativePath secretListingReq.parentLogicalPath "secret.txt")
        (listingAccessOptions secretListingReq)).1).canAccess = false
    ∧ ∀ item ∈ [itemATxt], item.name ≠ "secret.txt" := by
  refine ⟨rfl, by decide, ?_⟩
  exact (c8_listing_filters_hidden_children secretEnv secretListingReq rfl rfl).2.1
    _ "secret.txt" (by decide) (Or.inl (by decide))

end NextExplorer
